import Mathlib

/-!
Shallow embedding of `business_card.py` (myakhnis/business_card_parser).

The program recognizes a name, a phone number and an email address in a
line-oriented document via three `re.match` patterns.  We embed Python's
`re.match` semantics for exactly the constructs those patterns use
(character classes `\w \d \s`, literals, greedy `* + ? {m,n}` on single
characters, `?` on groups, numbered capturing groups and a final `$`) as a
small backtracking engine producing the leftmost-greedy match, the same
preference order CPython's backtracking engine uses.  On top of it we embed
the `Name`, `Email` and `Phone` fragment classes with their mutable
`self.match` state, and `ContactInfo`'s scan loop.

Modelling conventions:
  * Strings are ASCII here, so `\w` is `[A-Za-z0-9_]`, `\s` is
    `[ \t\n\r\x0b\x0c]`, `\d` is `[0-9]` (Python's Unicode extensions are
    irrelevant to this program's inputs).
  * `$` is modelled as end-of-string; the lines offered to the recognizers
    have had their trailing newline split off by `ContactInfo.__init__`
    (`line.split("\n")[0]`), so Python's `$`-before-final-newline case
    cannot arise.
  * Reading the document file and the `names.txt` common-name resource are
    external collaborators; the line list and the common-name set are
    parameters here.
-/

/-- ASCII word character, Python `\w`. -/
def isWordChar (c : Char) : Bool := c.isAlphanum || c == '_'

/-- ASCII whitespace, Python `\s`. -/
def isSpaceChar (c : Char) : Bool :=
  c == ' ' || c == '\t' || c == '\n' || c == '\r' || c == '\x0b' || c == '\x0c'

/-- Decimal digit, Python `\d`. -/
def isDigitChar (c : Char) : Bool := c.isDigit

/-- Single-character classes appearing in the three patterns. -/
inductive CharCls : Type
  | word          -- \w
  | digit         -- \d
  | space         -- \s
  | lit : Char → CharCls  -- a literal character
deriving DecidableEq

def CharCls.test : CharCls → Char → Bool
  | .word, c => isWordChar c
  | .digit, c => isDigitChar c
  | .space, c => isSpaceChar c
  | .lit a, c => a == c

/-- Regular expressions, restricted to the constructs the program uses. -/
inductive Re : Type
  | cls : CharCls → Re                  -- single character of a class
  | rep : CharCls → Nat → Option Nat → Re
      -- greedy c{lo,hi} over one class; hi = none means unbounded
      -- (\w* = rep word 0 none, \w+ = rep word 1 none, \d{3} = rep digit 3 (some 3))
  | seq : Re → Re → Re                  -- concatenation
  | opt : Re → Re                       -- greedy r?
  | group : Nat → Re → Re               -- numbered capturing group
  | eos : Re                            -- $ (end of string)

/-- Captures: group number to captured slice.  An optional group that did
not take part in the final match is `none`, like Python's `m.group(i)`. -/
def Caps : Type := Nat → Option (List Char)

def Caps.empty : Caps := fun _ => none

def Caps.set (caps : Caps) (n : Nat) (v : List Char) : Caps :=
  fun m => if m = n then some v else caps m

/-- Length of the maximal run of class-`c` characters at the head of `cs`. -/
def runLen (c : CharCls) (cs : List Char) : Nat := (cs.takeWhile c.test).length

/-- Greedy counted repetition: try `k i`, then `k (i-1)`, ... down to `lo`;
first success wins.  This is the backtracking order of a greedy quantifier. -/
def tryCounts (lo : Nat) (k : Nat → Option Caps) : Nat → Option Caps
  | 0 => if lo = 0 then k 0 else none
  | i + 1 => if i + 1 < lo then none
      else (k (i + 1)).orElse (fun _ => tryCounts lo k i)

/-- The backtracking matcher in continuation-passing style.  `mmatch r cs
caps k` tries every way `r` can match a prefix of `cs`, in Python's
leftmost-greedy preference order, calling `k` on the remainder and updated
captures; the first success is the overall result, exactly as in `re`. -/
def mmatch : Re → List Char → Caps → (List Char → Caps → Option Caps) → Option Caps
  | .cls c, cs, caps, k =>
      match cs with
      | [] => none
      | ch :: rest => if c.test ch then k rest caps else none
  | .rep c lo hi, cs, caps, k =>
      let maxN := match hi with
        | none => runLen c cs
        | some h => min (runLen c cs) h
      tryCounts lo (fun i => k (cs.drop i) caps) maxN
  | .seq a b, cs, caps, k =>
      mmatch a cs caps (fun cs2 caps2 => mmatch b cs2 caps2 k)
  | .opt r, cs, caps, k =>
      (mmatch r cs caps k).orElse (fun _ => k cs caps)
  | .group n r, cs, caps, k =>
      mmatch r cs caps
        (fun cs2 caps2 => k cs2 (caps2.set n (cs.take (cs.length - cs2.length))))
  | .eos, cs, caps, k =>
      if cs.isEmpty then k cs caps else none

/-- The top-level continuation: once the whole pattern has matched, the
accumulated captures are the result. -/
def fullK : List Char → Caps → Option Caps := fun _ caps => some caps

/-- `re.match(pattern, s)`: anchored at the start (all three patterns also
begin with an explicit `^`, redundant under `re.match`). -/
def reMatch (r : Re) (s : String) : Option Caps :=
  mmatch r s.data Caps.empty fullK

/-- Name.pattern = "^(\w+)\s+(\w+\.?)(\s+\w+)?$"  (groups 1, 2, 3). -/
def namePattern : Re :=
  .seq (.group 1 (.rep .word 1 none))
  (.seq (.rep .space 1 none)
  (.seq (.group 2 (.seq (.rep .word 1 none) (.opt (.cls (.lit '.')))))
  (.seq (.opt (.group 3 (.seq (.rep .space 1 none) (.rep .word 1 none))))
  .eos)))

/-- Email.pattern = "^(?P<pre>\w+\.?\w+)@(?P<dom>\w+)\.(?P<suf>\w+)$".
The named groups are numbered 1, 2, 3 in source order, as in Python. -/
def emailPattern : Re :=
  .seq (.group 1 (.seq (.rep .word 1 none) (.seq (.opt (.cls (.lit '.'))) (.rep .word 1 none))))
  (.seq (.cls (.lit '@'))
  (.seq (.group 2 (.rep .word 1 none))
  (.seq (.cls (.lit '.'))
  (.seq (.group 3 (.rep .word 1 none))
  .eos))))

/-- Phone.pattern =
"^(\w*:?\s)?(?P<country_code>\+\d{1,3})?\s*\(?(?P<area_code>\d{3})\)?\s*-?(?P<pre>\d{3})-?(?P<suf>\d{4})$".
Group numbers in source order: 1 = label, 2 = country_code, 3 = area_code,
4 = exchange, 5 = suffix. -/
def phonePattern : Re :=
  .seq (.opt (.group 1 (.seq (.rep .word 0 none) (.seq (.opt (.cls (.lit ':'))) (.cls .space)))))
  (.seq (.opt (.group 2 (.seq (.cls (.lit '+')) (.rep .digit 1 (some 3)))))
  (.seq (.rep .space 0 none)
  (.seq (.opt (.cls (.lit '(')))
  (.seq (.group 3 (.rep .digit 3 (some 3)))
  (.seq (.opt (.cls (.lit ')')))
  (.seq (.rep .space 0 none)
  (.seq (.opt (.cls (.lit '-')))
  (.seq (.group 4 (.rep .digit 3 (some 3)))
  (.seq (.opt (.cls (.lit '-')))
  (.seq (.group 5 (.rep .digit 4 (some 4)))
  .eos))))))))))

/-- Python exceptions raised by the `parse` methods. -/
inductive PyError : Type
  | valueError : String → PyError
  | nameError : String → PyError
deriving DecidableEq

/-- Python `str.strip()`: drop leading and trailing whitespace. -/
def pyStrip (s : List Char) : List Char :=
  ((s.dropWhile isSpaceChar).reverse.dropWhile isSpaceChar).reverse

namespace NameFrag

/-!  class Name(ContactFragment).  `self.match : Option Caps` is the mutable
instance state; `detect` returns the new state, which is also the value the
Python method returns (a Match object is truthy, None falsy).  The
common-name set loaded from `names.txt` is the `commonNames` parameter.
Note the source's `line.strip()` discards its result (Python strings are
immutable), so `detect` matches against `line` as given. -/

/-- Name.detect: `self.match = re.match(self.pattern, line)`; on a match
whose group(1) is not a common name, `self.match = None`; returns
`self.match`.  The previous state is overwritten unconditionally. -/
def detect (commonNames : List String) (_st : Option Caps) (line : String) : Option Caps :=
  match reMatch namePattern line with
  | none => none
  | some caps =>
      match caps 1 with
      | none => none   -- unreachable: group 1 is not optional
      | some g1 => if commonNames.contains (String.mk g1) then some caps else none

/-- Name.parse: raises ValueError when `self.match` is None; otherwise
reassembles first/middle/last.  group(3), when present, carries its leading
whitespace and is `.strip()`ed; `if middle_name:` is Python truthiness. -/
def parse (st : Option Caps) : Except PyError String :=
  match st with
  | none => .error (.valueError "Cannot parse name! The requested data was not found in this line.")
  | some caps =>
      let firstName := (caps 1).getD []   -- group 1 always captured on a match
      match caps 3 with
      | none =>
          let lastName := (caps 2).getD []
          .ok (String.mk (firstName ++ ' ' :: lastName))
      | some g3 =>
          let middleName := (caps 2).getD []
          let lastName := pyStrip g3
          if middleName.isEmpty then .ok (String.mk (firstName ++ ' ' :: lastName))
          else .ok (String.mk (firstName ++ ' ' :: (middleName ++ ' ' :: lastName)))

end NameFrag

namespace EmailFrag

/-!  class Email(ContactFragment). -/

/-- Email.detect: `self.match = re.match(self.pattern, line)`; returns it.
The previous state is overwritten unconditionally. -/
def detect (_st : Option Caps) (line : String) : Option Caps :=
  reMatch emailPattern line

/-- Email.parse: on `self.match` None the source evaluates the message
`"...".format(datatype)` with `datatype` undefined, so Python raises
NameError (before any ValueError is built); otherwise reassembles
`{pre}@{dom}.{suf}` from the three named groups. -/
def parse (st : Option Caps) : Except PyError String :=
  match st with
  | none => .error (.nameError "datatype")
  | some caps =>
      let pre := (caps 1).getD []
      let dom := (caps 2).getD []
      let suf := (caps 3).getD []
      .ok (String.mk (pre ++ '@' :: (dom ++ '.' :: suf)))

end EmailFrag

namespace PhoneFrag

/-!  class Phone(ContactFragment). -/

/-- Phone.detect: unlike the other two fragments the source guards the
assignment with `if not self.match:` ("only store a new match"), so once
`self.match` is set it is never replaced; returns `self.match`. -/
def detect (st : Option Caps) (line : String) : Option Caps :=
  match st with
  | some m => some m
  | none => reMatch phonePattern line

/-- Phone.parse: ValueError when `self.match` is None; otherwise
country_code (None → ``""``, else `'+'` removed by `.replace('+','')`)
++ area_code ++ exchange ++ suffix.  The `try/except` around
`group('country_code')` never fires: the group exists in the pattern. -/
def parse (st : Option Caps) : Except PyError String :=
  match st with
  | none => .error (.valueError "Cannot parse phone! The requested data was not found in this line.")
  | some caps =>
      let countryCode := match caps 2 with
        | none => []
        | some s => s.filter (fun c => c != '+')
      let areaCode := (caps 3).getD []
      let exch := (caps 4).getD []
      let suf := (caps 5).getD []
      .ok (String.mk (countryCode ++ areaCode ++ exch ++ suf))

end PhoneFrag

/-- The aggregate result: `self.parsed_data` with keys name/phone/email,
each initialized to None. -/
structure ContactRecord where
  name : Option String
  phone : Option String
  email : Option String
deriving DecidableEq

/-- The scan state: the three fragment instances' `self.match` fields plus
the accumulating `parsed_data`. -/
structure ScanState where
  nameSt : Option Caps
  phoneSt : Option Caps
  emailSt : Option Caps
  record : ContactRecord

def ScanState.init : ScanState :=
  { nameSt := none, phoneSt := none, emailSt := none
    record := { name := none, phone := none, email := none } }

/-- One line of ContactInfo.__init__'s inner loop: for each fragment in
registration order [Name(), Phone(), Email()], `if fragment.detect(line):
parsed_data[datatype] = fragment.parse(line)`.  A parse exception would
propagate out of the constructor, hence the `Except`. -/
def scanLine (commonNames : List String) (st : ScanState) (line : String) :
    Except PyError ScanState := do
  let nSt := NameFrag.detect commonNames st.nameSt line
  let st : ScanState ←
    match nSt with
    | some _ => do
        let v ← NameFrag.parse nSt
        pure { st with nameSt := nSt, record := { st.record with name := some v } }
    | none => pure { st with nameSt := nSt }
  let pSt := PhoneFrag.detect st.phoneSt line
  let st : ScanState ←
    match pSt with
    | some _ => do
        let v ← PhoneFrag.parse pSt
        pure { st with phoneSt := pSt, record := { st.record with phone := some v } }
    | none => pure { st with phoneSt := pSt }
  let eSt := EmailFrag.detect st.emailSt line
  match eSt with
  | some _ => do
      let v ← EmailFrag.parse eSt
      pure { st with emailSt := eSt, record := { st.record with email := some v } }
  | none => pure { st with emailSt := eSt }

def scanLines (commonNames : List String) : ScanState → List String → Except PyError ScanState
  | st, [] => .ok st
  | st, l :: ls => do scanLines commonNames (← scanLine commonNames st l) ls

/-- ContactInfo over an already-read line list: initialize the three slots
to None and run the double loop (an empty document short-circuits to the
defaults, which coincides with running the loop zero times). -/
def getContactInfo (commonNames : List String) (lines : List String) :
    Except PyError ContactRecord :=
  (scanLines commonNames ScanState.init lines).map ScanState.record

/-- The first capture of the name pattern on a line: `some` exactly when the
line has the FIRST [MIDDLE] LAST shape, holding the FIRST token. -/
def nameFirstCapture (line : String) : Option String :=
  (reMatch namePattern line).bind (fun caps => (caps 1).map String.mk)

/-- The raw country-code capture (still carrying its `+`) of a fresh phone
detection on `s`; `none` when the line does not match or has no country
code. -/
def phoneCountryCode (s : String) : Option (List Char) :=
  match PhoneFrag.detect none s with
  | none => none
  | some caps => caps 2

/-- Number of country-code digits a fresh phone detection on `s` captured
(the capture minus its leading `+`). -/
def ccDigitCount (s : String) : Nat :=
  match phoneCountryCode s with
  | none => 0
  | some v => v.length - 1

/-- Syntactically group-free regexes (used for sub-patterns whose captures
the program never reads). -/
def groupFree : Re → Bool
  | .cls _ => true
  | .rep _ _ _ => true
  | .seq a b => groupFree a && groupFree b
  | .opt p => groupFree p
  | .group _ _ => false
  | .eos => true

/-- The area-code capture (group 3) is three digits. -/
def areaFact (caps : Caps) : Prop :=
  ∃ a, caps 3 = some a ∧ a.length = 3 ∧ a.all isDigitChar = true

/-- The exchange capture (group 4) is three digits. -/
def exchFact (caps : Caps) : Prop :=
  ∃ e, caps 4 = some e ∧ e.length = 3 ∧ e.all isDigitChar = true

/-- The country-code capture (group 2) is absent or `+` plus 1–3 digits. -/
def ccFact (caps : Caps) : Prop :=
  caps 2 = none ∨
    ∃ cd, caps 2 = some ('+' :: cd) ∧ 1 ≤ cd.length ∧ cd.length ≤ 3 ∧
      cd.all isDigitChar = true

/-- What a successful phone match guarantees about the captures the
normalization step reads: a 3-digit area code, a 3-digit exchange, a
4-digit suffix, and a country-code capture that is either absent or a `+`
followed by one to three digits. -/
def PhoneCapsOK (res : Caps) : Prop :=
  areaFact res ∧ exchFact res ∧
  (∃ sfx, res 5 = some sfx ∧ sfx.length = 4 ∧ sfx.all isDigitChar = true) ∧
  ccFact res

/-!  Successive tails of `phonePattern` (the pattern is the tail list read
off from its right-nested `seq` spine); used to invert a phone match one
construct at a time. -/

def phoneTail11 : Re := .seq (.group 5 (.rep .digit 4 (some 4))) .eos

def phoneTail10 : Re := .seq (.opt (.cls (.lit '-'))) phoneTail11

def phoneTail9 : Re := .seq (.group 4 (.rep .digit 3 (some 3))) phoneTail10

def phoneTail8 : Re := .seq (.opt (.cls (.lit '-'))) phoneTail9

def phoneTail7 : Re := .seq (.rep .space 0 none) phoneTail8

def phoneTail6 : Re := .seq (.opt (.cls (.lit ')'))) phoneTail7

def phoneTail5 : Re := .seq (.group 3 (.rep .digit 3 (some 3))) phoneTail6

def phoneTail4 : Re := .seq (.opt (.cls (.lit '('))) phoneTail5

def phoneTail3 : Re := .seq (.rep .space 0 none) phoneTail4

def phoneTail2 : Re :=
  .seq (.opt (.group 2 (.seq (.cls (.lit '+')) (.rep .digit 1 (some 3))))) phoneTail3

/-- The language of the email local part `\w+\.?\w+`: either two or more
word characters, or word characters with exactly one internal period and at
least one word character on each side. -/
def emailLocalOk (pre : List Char) : Prop :=
  (pre.all isWordChar = true ∧ 2 ≤ pre.length) ∨
  (∃ p1 p2, pre = p1 ++ '.' :: p2 ∧ p1 ≠ [] ∧ p2 ≠ [] ∧
    p1.all isWordChar = true ∧ p2.all isWordChar = true)

/-! ### Claim theorems (concrete scans and detections) -/

/-- C1: the spec says that on `["123-456-7898", "(222) 999-8888"]` the last
successful phone detection wins, giving phone = "2229998888".  The code's
`Phone.detect` only assigns `self.match` when it is still None, so the
first line's match is reused for the second line and the scan produces
phone = "1234567898" instead. -/
theorem c1_phone_scan_keeps_first_match :
    getContactInfo [] ["123-456-7898", "(222) 999-8888"] =
      Except.ok { name := none, phone := some "1234567898", email := none } ∧
    ({ name := none, phone := some "1234567898", email := none } : ContactRecord) ≠
      { name := none, phone := some "2229998888", email := none } := by
  constructor
  · rfl
  · decide

/-- C2: the spec says recognizer detection is independent of previously
seen lines.  For `Phone`, after a successful detect the stored match leaks:
detect on "456-7898" (which matches nothing on a fresh recognizer) still
reports a match. -/
theorem c2_phone_detect_state_leaks :
    (PhoneFrag.detect (PhoneFrag.detect none "123-456-7898") "456-7898").isSome = true ∧
    (PhoneFrag.detect none "456-7898").isSome = false := by
  constructor
  · rfl
  · rfl

/-- C7: invoking parse when no detect has succeeded (the stored match is
None) raises an exception in all three fragments — a ValueError for Name
and Phone, and for Email a NameError from the undefined `datatype` in the
message-formatting expression; never a silently defaulted value. -/
theorem c7_parse_without_detect_raises :
    NameFrag.parse none =
      Except.error (PyError.valueError
        "Cannot parse name! The requested data was not found in this line.") ∧
    EmailFrag.parse none = Except.error (PyError.nameError "datatype") ∧
    PhoneFrag.parse none =
      Except.error (PyError.valueError
        "Cannot parse phone! The requested data was not found in this line.") := by
  exact ⟨rfl, rfl, rfl⟩

/-- C8: "bob@@company.com" fails email detection, "456-7898" fails phone
detection on a fresh recognizer, and the four-token "Jim Bob Yes Siree"
fails name detection whatever the common-name set is. -/
theorem c8_invalid_lines_fail_detection :
    (EmailFrag.detect none "bob@@company.com").isNone = true ∧
    (PhoneFrag.detect none "456-7898").isNone = true ∧
    ∀ commonNames : List String,
      (NameFrag.detect commonNames none "Jim Bob Yes Siree").isNone = true := by
  refine ⟨rfl, rfl, fun commonNames => rfl⟩

/-- C8 witness: the universally quantified name part at a concrete set. -/
theorem c8_invalid_lines_fail_detection_witness :
    (NameFrag.detect ["Jim"] none "Jim Bob Yes Siree").isNone = true :=
  c8_invalid_lines_fail_detection.2.2 ["Jim"]

/-- C9: the spec says surrounding whitespace does not prevent name
detection (the source even comments "delete leading and trailing
whitespace"), but `line.strip()`'s result is discarded — Python strings
are immutable — so the anchored pattern fails on " Mike Smith" while
succeeding on "Mike Smith". -/
theorem c9_leading_whitespace_blocks_name_detection :
    (NameFrag.detect ["Mike"] none " Mike Smith").isNone = true ∧
    (NameFrag.detect ["Mike"] none "Mike Smith").isSome = true := by
  exact ⟨rfl, rfl⟩

/-- C10: a scan over an empty line sequence returns a record with all
three slots None and raises nothing, whatever the common-name set. -/
theorem c10_empty_scan_all_absent (commonNames : List String) :
    getContactInfo commonNames [] =
      Except.ok { name := none, phone := none, email := none } := rfl

/-- C10 witness: the empty scan at a concrete common-name set. -/
theorem c10_empty_scan_all_absent_witness :
    getContactInfo ["Mike"] [] =
      Except.ok { name := none, phone := none, email := none } :=
  c10_empty_scan_all_absent ["Mike"]

/-- C5 counterexample: the spec's email grammar admits a one-word-character
local part, but `\w+\.?\w+` needs at least two word characters, so
"a@b.c" fails detection. -/
theorem c5_single_char_local_part_fails :
    (EmailFrag.detect none "a@b.c").isNone = true := rfl

/-! ### Generic facts about the matcher -/

lemma caps_set_eq (caps : Caps) (n : Nat) (v : List Char) : (caps.set n v) n = some v := by
  simp [Caps.set]

lemma caps_set_ne (caps : Caps) {m n : Nat} (v : List Char) (h : m ≠ n) :
    (caps.set n v) m = caps m := by
  simp [Caps.set, h]

lemma orElse_eq_some_inv {a : Option Caps} {b : Unit → Option Caps} {r : Caps}
    (h : a.orElse b = some r) : a = some r ∨ (a = none ∧ b () = some r) := by
  cases a with
  | none => exact Or.inr ⟨rfl, h⟩
  | some x => exact Or.inl h

lemma tryCounts_eq_some_inv {lo : Nat} {k : Nat → Option Caps} :
    ∀ {i : Nat} {r : Caps}, tryCounts lo k i = some r → ∃ j, lo ≤ j ∧ j ≤ i ∧ k j = some r := by
  intro i
  induction i with
  | zero =>
      intro r h
      simp only [tryCounts] at h
      by_cases hlo : lo = 0
      · exact ⟨0, by omega, le_refl 0, by simpa [hlo] using h⟩
      · simp [hlo] at h
  | succ i ih =>
      intro r h
      simp only [tryCounts] at h
      by_cases hlt : i + 1 < lo
      · simp [hlt] at h
      · simp only [if_neg hlt] at h
        rcases orElse_eq_some_inv h with h1 | ⟨_, h2⟩
        · exact ⟨i + 1, by omega, le_refl _, h1⟩
        · obtain ⟨j, hj1, hj2, hj3⟩ := ih h2
          exact ⟨j, hj1, by omega, hj3⟩

lemma runLen_le (c : CharCls) (cs : List Char) : runLen c cs ≤ cs.length := by
  unfold runLen
  exact (List.takeWhile_prefix c.test).length_le

lemma all_take_of_le_runLen {c : CharCls} {cs : List Char} {j : Nat} (h : j ≤ runLen c cs) :
    (cs.take j).all c.test = true := by
  unfold runLen at h
  have hsplit : cs.takeWhile c.test ++ cs.dropWhile c.test = cs :=
    List.takeWhile_append_dropWhile c.test cs
  have htake : cs.take j = (cs.takeWhile c.test).take j := by
    conv_lhs => rw [← hsplit]
    exact List.take_append_of_le_length h
  rw [htake, List.all_eq_true]
  intro x hx
  exact List.mem_takeWhile_imp (List.mem_of_mem_take hx)

lemma length_take_of_le {cs : List Char} {j : Nat} (h : j ≤ cs.length) :
    (cs.take j).length = j := by
  simp [List.length_take, Nat.min_eq_left h]

lemma take_sub_of_append {a b cs : List Char} (h : cs = a ++ b) :
    cs.take (cs.length - b.length) = a := by
  subst h
  have : (a ++ b).length - b.length = a.length := by simp
  rw [this]
  exact List.take_left a b

/-! ### Inversion lemmas: what a successful match implies -/

lemma mmatch_cls_inv {c : CharCls} {cs : List Char} {caps : Caps}
    {k : List Char → Caps → Option Caps} {r : Caps}
    (h : mmatch (.cls c) cs caps k = some r) :
    ∃ ch rest, cs = ch :: rest ∧ c.test ch = true ∧ k rest caps = some r := by
  cases cs with
  | nil => simp [mmatch] at h
  | cons ch rest =>
      simp only [mmatch] at h
      by_cases ht : c.test ch
      · exact ⟨ch, rest, rfl, ht, by simpa [ht] using h⟩
      · simp [ht] at h

lemma mmatch_rep_inv {c : CharCls} {lo : Nat} {hi : Option Nat} {cs : List Char} {caps : Caps}
    {k : List Char → Caps → Option Caps} {r : Caps}
    (h : mmatch (.rep c lo hi) cs caps k = some r) :
    ∃ j, lo ≤ j ∧ j ≤ runLen c cs ∧ (∀ h2, hi = some h2 → j ≤ h2) ∧
      k (cs.drop j) caps = some r := by
  cases hi with
  | none =>
      simp only [mmatch] at h
      obtain ⟨j, hj1, hj2, hj3⟩ := tryCounts_eq_some_inv h
      have hj2' : j ≤ runLen c cs := by simpa using hj2
      refine ⟨j, hj1, hj2', ?_, hj3⟩
      intro h2 hh
      cases hh
  | some hval =>
      simp only [mmatch] at h
      obtain ⟨j, hj1, hj2, hj3⟩ := tryCounts_eq_some_inv h
      have hj2' : j ≤ min (runLen c cs) hval := by simpa using hj2
      refine ⟨j, hj1, le_trans hj2' (Nat.min_le_left _ _), ?_, hj3⟩
      intro h2 hh
      injection hh with hh2
      subst hh2
      exact le_trans hj2' (Nat.min_le_right _ _)

lemma mmatch_opt_inv {p : Re} {cs : List Char} {caps : Caps}
    {k : List Char → Caps → Option Caps} {r : Caps}
    (h : mmatch (.opt p) cs caps k = some r) :
    mmatch p cs caps k = some r ∨ k cs caps = some r := by
  simp only [mmatch] at h
  rcases orElse_eq_some_inv h with h1 | ⟨_, h2⟩
  · exact Or.inl h1
  · exact Or.inr h2

lemma mmatch_eos_inv {cs : List Char} {caps : Caps}
    {k : List Char → Caps → Option Caps} {r : Caps}
    (h : mmatch .eos cs caps k = some r) : cs = [] ∧ k [] caps = some r := by
  cases cs with
  | nil => exact ⟨rfl, by simpa [mmatch] using h⟩
  | cons ch rest => simp [mmatch] at h

lemma mmatch_seq_eq (a b : Re) (cs : List Char) (caps : Caps)
    (k : List Char → Caps → Option Caps) :
    mmatch (.seq a b) cs caps k = mmatch a cs caps (fun cs2 caps2 => mmatch b cs2 caps2 k) := by
  simp [mmatch]

lemma mmatch_group_eq (n : Nat) (p : Re) (cs : List Char) (caps : Caps)
    (k : List Char → Caps → Option Caps) :
    mmatch (.group n p) cs caps k =
      mmatch p cs caps
        (fun cs2 caps2 => k cs2 (caps2.set n (cs.take (cs.length - cs2.length)))) := by
  simp [mmatch]

/-- A capturing group over a single counted class: the capture is an
explicit prefix of the input with the class and length bounds. -/
lemma mmatch_group_rep_inv {n : Nat} {c : CharCls} {lo : Nat} {hi : Option Nat}
    {cs : List Char} {caps : Caps} {k : List Char → Caps → Option Caps} {r : Caps}
    (h : mmatch (.group n (.rep c lo hi)) cs caps k = some r) :
    ∃ v rest, cs = v ++ rest ∧ lo ≤ v.length ∧ (∀ h2, hi = some h2 → v.length ≤ h2) ∧
      v.all c.test = true ∧ k rest (caps.set n v) = some r := by
  rw [mmatch_group_eq] at h
  obtain ⟨j, hj1, hj2, hj3, hj4⟩ := mmatch_rep_inv h
  have hjlen : j ≤ cs.length := le_trans hj2 (runLen_le c cs)
  have hsplit : cs = cs.take j ++ cs.drop j := (List.take_append_drop j cs).symm
  have hdroplen : (cs.drop j).length = cs.length - j := by simp
  have hcap : cs.take (cs.length - (cs.drop j).length) = cs.take j := by
    rw [hdroplen, Nat.sub_sub_self hjlen]
  refine ⟨cs.take j, cs.drop j, hsplit, ?_, ?_, all_take_of_le_runLen hj2, ?_⟩
  · rwa [length_take_of_le hjlen]
  · intro h2 hh
    rw [length_take_of_le hjlen]
    exact hj3 h2 hh
  · rwa [hcap] at hj4

/-- A group-free regex consumes a prefix and passes the captures through
unchanged. -/
lemma mmatch_consume_nogroup :
    ∀ (p : Re), groupFree p = true →
      ∀ {cs : List Char} {caps : Caps} {k : List Char → Caps → Option Caps} {r : Caps},
        mmatch p cs caps k = some r →
        ∃ pre rest, cs = pre ++ rest ∧ k rest caps = some r := by
  intro p
  induction p with
  | cls c =>
      intro _ cs caps k r h
      obtain ⟨ch, rest, hcs, _, hk⟩ := mmatch_cls_inv h
      exact ⟨[ch], rest, hcs, hk⟩
  | rep c lo hi =>
      intro _ cs caps k r h
      obtain ⟨j, _, _, _, hk⟩ := mmatch_rep_inv h
      exact ⟨cs.take j, cs.drop j, (List.take_append_drop j cs).symm, hk⟩
  | seq a b iha ihb =>
      intro hgf cs caps k r h
      simp only [groupFree, Bool.and_eq_true] at hgf
      rw [mmatch_seq_eq] at h
      obtain ⟨p1, rest1, hcs1, hk1⟩ := iha hgf.1 h
      obtain ⟨p2, rest2, hcs2, hk2⟩ := ihb hgf.2 hk1
      exact ⟨p1 ++ p2, rest2, by rw [hcs1, hcs2, List.append_assoc], hk2⟩
  | opt p ihp =>
      intro hgf cs caps k r h
      rcases mmatch_opt_inv h with h1 | h2
      · exact ihp (by simpa [groupFree] using hgf) h1
      · exact ⟨[], cs, rfl, h2⟩
  | group n p ihp =>
      intro hgf
      simp [groupFree] at hgf
  | eos =>
      intro _ cs caps k r h
      obtain ⟨hcs, hk⟩ := mmatch_eos_inv h
      subst hcs
      exact ⟨[], [], rfl, hk⟩

/-! ### Email: inversion of a successful match -/

/-- A successful email match tiles the line as `pre @ dom . suf`, with the
three captures being exactly those slices. -/
lemma email_match_inv {cs : List Char} {res : Caps}
    (h : mmatch emailPattern cs Caps.empty fullK = some res) :
    ∃ pre dom suf : List Char,
      cs = pre ++ '@' :: (dom ++ '.' :: suf) ∧
      res 1 = some pre ∧ res 2 = some dom ∧ res 3 = some suf := by
  unfold emailPattern at h
  rw [mmatch_seq_eq, mmatch_group_eq] at h
  obtain ⟨p1, rest1, hcs1, hk1⟩ :=
    mmatch_consume_nogroup
      (.seq (.rep .word 1 none) (.seq (.opt (.cls (.lit '.'))) (.rep .word 1 none))) rfl h
  try simp only at hk1
  rw [take_sub_of_append hcs1] at hk1
  rw [mmatch_seq_eq] at hk1
  obtain ⟨ch, rest2, hrest1, hch, hk2⟩ := mmatch_cls_inv hk1
  simp only [CharCls.test] at hch
  have hch' : ch = '@' := (eq_of_beq hch).symm
  subst hch'
  try simp only at hk2
  rw [mmatch_seq_eq] at hk2
  obtain ⟨dom, rest3, hrest2, _, _, _, hk3⟩ := mmatch_group_rep_inv hk2
  try simp only at hk3
  rw [mmatch_seq_eq] at hk3
  obtain ⟨ch2, rest4, hrest3, hch2, hk4⟩ := mmatch_cls_inv hk3
  simp only [CharCls.test] at hch2
  have hch2' : ch2 = '.' := (eq_of_beq hch2).symm
  subst hch2'
  try simp only at hk4
  rw [mmatch_seq_eq] at hk4
  obtain ⟨suf, rest5, hrest4, _, _, _, hk5⟩ := mmatch_group_rep_inv hk4
  try simp only at hk5
  obtain ⟨hrest5, hk6⟩ := mmatch_eos_inv hk5
  subst hrest5
  simp only [fullK] at hk6
  have hres : ((Caps.empty.set 1 p1).set 2 dom).set 3 suf = res := Option.some.inj hk6
  subst hres
  refine ⟨p1, dom, suf, ?_, ?_, ?_, ?_⟩
  · rw [hcs1, hrest1, hrest2, hrest3, hrest4, List.append_nil]
  · rw [caps_set_ne _ _ (by omega), caps_set_ne _ _ (by omega), caps_set_eq]
  · rw [caps_set_ne _ _ (by omega), caps_set_eq]
  · rw [caps_set_eq]

/-- C3: for every line the email recognizer detects, normalizing the
detected match reconstructs the original line character for character. -/
theorem c3_email_roundtrip (s : String) (h : (EmailFrag.detect none s).isSome = true) :
    EmailFrag.parse (EmailFrag.detect none s) = Except.ok s := by
  obtain ⟨res, hres⟩ := Option.isSome_iff_exists.mp h
  have h2 : mmatch emailPattern s.data Caps.empty fullK = some res := hres
  obtain ⟨pre, dom, suf, hcs, h1, hd, hs⟩ := email_match_inv h2
  have hdet : EmailFrag.detect none s = some res := hres
  rw [hdet]
  simp only [EmailFrag.parse, h1, hd, hs, Option.getD_some]
  congr 1
  cases s with
  | mk data =>
      simp only at hcs
      simp [hcs]

/-- C3 witness: the round trip at "bob@company.com". -/
theorem c3_email_roundtrip_witness :
    (EmailFrag.detect none "bob@company.com").isSome = true ∧
    EmailFrag.parse (EmailFrag.detect none "bob@company.com") =
      Except.ok "bob@company.com" :=
  ⟨rfl, c3_email_roundtrip "bob@company.com" rfl⟩

/-- C6: whenever a line's shape matches the name pattern but its first
token (group 1 of the match) is not in the common-name set, Name.detect
reports no match, whatever the recognizer's prior state. -/
theorem c6_uncommon_first_token_fails (commonNames : List String) (st : Option Caps)
    (line : String) (t : String)
    (h1 : nameFirstCapture line = some t) (h2 : commonNames.contains t = false) :
    (NameFrag.detect commonNames st line).isNone = true := by
  unfold nameFirstCapture at h1
  cases hm : reMatch namePattern line with
  | none => simp [NameFrag.detect, hm]
  | some caps =>
      rw [hm] at h1
      rw [Option.some_bind] at h1
      cases hg : caps 1 with
      | none => rw [hg] at h1; simp at h1
      | some g1 =>
          rw [hg] at h1
          rw [Option.map_some'] at h1
          have ht : String.mk g1 = t := Option.some.inj h1
          subst ht
          have h2' : String.mk g1 ∉ commonNames := by simpa using h2
          simp [NameFrag.detect, hm, hg, h2']

/-- C6 witness: "Jim Bob" has a valid shape with first token "Jim"; with an
empty common-name set detection fails. -/
theorem c6_uncommon_first_token_fails_witness :
    nameFirstCapture "Jim Bob" = some "Jim" ∧ (List.contains [] "Jim") = false ∧
    (NameFrag.detect [] none "Jim Bob").isNone = true :=
  ⟨rfl, rfl, c6_uncommon_first_token_fails [] none "Jim Bob" "Jim" rfl rfl⟩

/-! ### Phone: inversion of a successful match -/

lemma phonePattern_tails :
    phonePattern =
      .seq (.opt (.group 1 (.seq (.rep .word 0 none) (.seq (.opt (.cls (.lit ':'))) (.cls .space)))))
        phoneTail2 := rfl

lemma areaFact_set_of_ne {caps : Caps} {n : Nat} {v : List Char} (hn : (3 : Nat) ≠ n)
    (h : areaFact caps) : areaFact (caps.set n v) := by
  obtain ⟨a, ha, h1, h2⟩ := h
  exact ⟨a, by rw [caps_set_ne _ _ hn]; exact ha, h1, h2⟩

lemma exchFact_set_of_ne {caps : Caps} {n : Nat} {v : List Char} (hn : (4 : Nat) ≠ n)
    (h : exchFact caps) : exchFact (caps.set n v) := by
  obtain ⟨e, he, h1, h2⟩ := h
  exact ⟨e, by rw [caps_set_ne _ _ hn]; exact he, h1, h2⟩

lemma ccFact_set_of_ne {caps : Caps} {n : Nat} {v : List Char} (hn : (2 : Nat) ≠ n)
    (h : ccFact caps) : ccFact (caps.set n v) := by
  rcases h with h | ⟨cd, hcd, h1, h2, h3⟩
  · exact Or.inl (by rw [caps_set_ne _ _ hn]; exact h)
  · exact Or.inr ⟨cd, by rw [caps_set_ne _ _ hn]; exact hcd, h1, h2, h3⟩

lemma phoneT11_ok {cs : List Char} {caps res : Caps}
    (h : mmatch phoneTail11 cs caps fullK = some res)
    (h3 : areaFact caps) (h4 : exchFact caps) (h2 : ccFact caps) : PhoneCapsOK res := by
  unfold phoneTail11 at h
  rw [mmatch_seq_eq] at h
  obtain ⟨sfx, rest, hcs, hlo, hhi, hall, hk⟩ := mmatch_group_rep_inv h
  try simp only at hk
  obtain ⟨hrest, hk2⟩ := mmatch_eos_inv hk
  subst hrest
  simp only [fullK] at hk2
  have hres : caps.set 5 sfx = res := Option.some.inj hk2
  subst hres
  have hlen : sfx.length = 4 := le_antisymm (hhi 4 rfl) hlo
  refine ⟨areaFact_set_of_ne (by omega) h3, exchFact_set_of_ne (by omega) h4,
    ⟨sfx, caps_set_eq _ _ _, hlen, ?_⟩, ccFact_set_of_ne (by omega) h2⟩
  exact hall

lemma phoneT10_ok {cs : List Char} {caps res : Caps}
    (h : mmatch phoneTail10 cs caps fullK = some res)
    (h3 : areaFact caps) (h4 : exchFact caps) (h2 : ccFact caps) : PhoneCapsOK res := by
  unfold phoneTail10 at h
  rw [mmatch_seq_eq] at h
  rcases mmatch_opt_inv h with h1 | h1
  · obtain ⟨ch, rest, hcs, hch, hk⟩ := mmatch_cls_inv h1
    try simp only at hk
    exact phoneT11_ok hk h3 h4 h2
  · try simp only at h1
    exact phoneT11_ok h1 h3 h4 h2

lemma phoneT9_ok {cs : List Char} {caps res : Caps}
    (h : mmatch phoneTail9 cs caps fullK = some res)
    (h3 : areaFact caps) (h2 : ccFact caps) : PhoneCapsOK res := by
  unfold phoneTail9 at h
  rw [mmatch_seq_eq] at h
  obtain ⟨e, rest, hcs, hlo, hhi, hall, hk⟩ := mmatch_group_rep_inv h
  try simp only at hk
  have hlen : e.length = 3 := le_antisymm (hhi 3 rfl) hlo
  exact phoneT10_ok hk (areaFact_set_of_ne (by omega) h3)
    ⟨e, caps_set_eq _ _ _, hlen, hall⟩ (ccFact_set_of_ne (by omega) h2)

lemma phoneT8_ok {cs : List Char} {caps res : Caps}
    (h : mmatch phoneTail8 cs caps fullK = some res)
    (h3 : areaFact caps) (h2 : ccFact caps) : PhoneCapsOK res := by
  unfold phoneTail8 at h
  rw [mmatch_seq_eq] at h
  rcases mmatch_opt_inv h with h1 | h1
  · obtain ⟨ch, rest, hcs, hch, hk⟩ := mmatch_cls_inv h1
    try simp only at hk
    exact phoneT9_ok hk h3 h2
  · try simp only at h1
    exact phoneT9_ok h1 h3 h2

lemma phoneT7_ok {cs : List Char} {caps res : Caps}
    (h : mmatch phoneTail7 cs caps fullK = some res)
    (h3 : areaFact caps) (h2 : ccFact caps) : PhoneCapsOK res := by
  unfold phoneTail7 at h
  rw [mmatch_seq_eq] at h
  obtain ⟨j, _, _, _, hk⟩ := mmatch_rep_inv h
  try simp only at hk
  exact phoneT8_ok hk h3 h2

lemma phoneT6_ok {cs : List Char} {caps res : Caps}
    (h : mmatch phoneTail6 cs caps fullK = some res)
    (h3 : areaFact caps) (h2 : ccFact caps) : PhoneCapsOK res := by
  unfold phoneTail6 at h
  rw [mmatch_seq_eq] at h
  rcases mmatch_opt_inv h with h1 | h1
  · obtain ⟨ch, rest, hcs, hch, hk⟩ := mmatch_cls_inv h1
    try simp only at hk
    exact phoneT7_ok hk h3 h2
  · try simp only at h1
    exact phoneT7_ok h1 h3 h2

lemma phoneT5_ok {cs : List Char} {caps res : Caps}
    (h : mmatch phoneTail5 cs caps fullK = some res)
    (h2 : ccFact caps) : PhoneCapsOK res := by
  unfold phoneTail5 at h
  rw [mmatch_seq_eq] at h
  obtain ⟨a, rest, hcs, hlo, hhi, hall, hk⟩ := mmatch_group_rep_inv h
  try simp only at hk
  have hlen : a.length = 3 := le_antisymm (hhi 3 rfl) hlo
  exact phoneT6_ok hk ⟨a, caps_set_eq _ _ _, hlen, hall⟩ (ccFact_set_of_ne (by omega) h2)

lemma phoneT4_ok {cs : List Char} {caps res : Caps}
    (h : mmatch phoneTail4 cs caps fullK = some res)
    (h2 : ccFact caps) : PhoneCapsOK res := by
  unfold phoneTail4 at h
  rw [mmatch_seq_eq] at h
  rcases mmatch_opt_inv h with h1 | h1
  · obtain ⟨ch, rest, hcs, hch, hk⟩ := mmatch_cls_inv h1
    try simp only at hk
    exact phoneT5_ok hk h2
  · try simp only at h1
    exact phoneT5_ok h1 h2

lemma phoneT3_ok {cs : List Char} {caps res : Caps}
    (h : mmatch phoneTail3 cs caps fullK = some res)
    (h2 : ccFact caps) : PhoneCapsOK res := by
  unfold phoneTail3 at h
  rw [mmatch_seq_eq] at h
  obtain ⟨j, _, _, _, hk⟩ := mmatch_rep_inv h
  try simp only at hk
  exact phoneT4_ok hk h2

lemma phoneT2_ok {cs : List Char} {caps res : Caps}
    (h : mmatch phoneTail2 cs caps fullK = some res)
    (h2 : caps 2 = none) : PhoneCapsOK res := by
  unfold phoneTail2 at h
  rw [mmatch_seq_eq] at h
  rcases mmatch_opt_inv h with h1 | h1
  · -- the country-code group participates
    rw [mmatch_group_eq, mmatch_seq_eq] at h1
    obtain ⟨ch, rest, hcs, hch, hk⟩ := mmatch_cls_inv h1
    simp only [CharCls.test] at hch
    have hch' : ch = '+' := (eq_of_beq hch).symm
    subst hch'
    try simp only at hk
    obtain ⟨j, hj1, hj2, hj3, hk2⟩ := mmatch_rep_inv hk
    try simp only at hk2
    have hjle : j ≤ rest.length := le_trans hj2 (runLen_le _ _)
    have harith : cs.length - (rest.drop j).length = j + 1 := by
      rw [hcs]; simp; omega
    rw [harith, hcs, List.take_succ_cons] at hk2
    exact phoneT3_ok hk2
      (Or.inr ⟨rest.take j, caps_set_eq _ _ _,
        by rw [length_take_of_le hjle]; exact hj1,
        by rw [length_take_of_le hjle]; exact hj3 3 rfl,
        all_take_of_le_runLen hj2⟩)
  · try simp only at h1
    exact phoneT3_ok h1 (Or.inl h2)

/-- Inversion of a full phone match: the captures feeding normalization
are digit groups of the right sizes. -/
lemma phone_match_ok {cs : List Char} {res : Caps}
    (h : mmatch phonePattern cs Caps.empty fullK = some res) : PhoneCapsOK res := by
  rw [phonePattern_tails, mmatch_seq_eq] at h
  rcases mmatch_opt_inv h with h1 | h1
  · -- the label group participates; it is group-free inside
    rw [mmatch_group_eq] at h1
    obtain ⟨p1, rest1, hcs1, hk1⟩ :=
      mmatch_consume_nogroup
        (.seq (.rep .word 0 none) (.seq (.opt (.cls (.lit ':'))) (.cls .space))) rfl h1
    try simp only at hk1
    exact phoneT2_ok hk1 (by rw [caps_set_ne _ _ (by omega)]; rfl)
  · try simp only at h1
    exact phoneT2_ok h1 rfl

lemma filter_ne_plus_of_digits {cd : List Char} (h : cd.all isDigitChar = true) :
    ('+' :: cd).filter (fun c => c != '+') = cd := by
  rw [List.filter_cons]
  have hplus : (('+' : Char) != '+') = false := by decide
  rw [hplus]
  simp only [Bool.false_eq_true, if_false]
  apply List.filter_eq_self.mpr
  intro c hc
  have hcdig : isDigitChar c = true := by
    rw [List.all_eq_true] at h
    exact h c hc
  cases hbe : (c == '+') with
  | false => simp [bne, hbe]
  | true =>
      exfalso
      have hce : c = '+' := eq_of_beq hbe
      subst hce
      exact absurd hcdig (by decide)

/-- C4: every line the phone recognizer detects afresh normalizes to a
pure-digit string of length 3 + 3 + 4 plus the captured country-code digit
count (0 when absent, 1 to 3 when present), hence 10 to 13 characters. -/
theorem c4_phone_normalize_digits (s : String) (h : (PhoneFrag.detect none s).isSome = true) :
    ∃ out : String, PhoneFrag.parse (PhoneFrag.detect none s) = Except.ok out ∧
      out.data.all isDigitChar = true ∧
      out.length = 10 + ccDigitCount s ∧
      ccDigitCount s ≤ 3 ∧
      (phoneCountryCode s ≠ none → 1 ≤ ccDigitCount s) ∧
      10 ≤ out.length ∧ out.length ≤ 13 := by
  obtain ⟨res, hres⟩ := Option.isSome_iff_exists.mp h
  have h2 : mmatch phonePattern s.data Caps.empty fullK = some res := hres
  obtain ⟨⟨a, ha, halen, hadig⟩, ⟨e, he, helen, hedig⟩, ⟨sfx, hs, hslen, hsdig⟩, hcc⟩ :=
    phone_match_ok h2
  have hdet : PhoneFrag.detect none s = some res := hres
  have hpcc : phoneCountryCode s = res 2 := by
    unfold phoneCountryCode
    rw [hdet]
  rw [hdet]
  rcases hcc with hnone | ⟨cd, hcd, hcd1, hcd3, hcddig⟩
  · refine ⟨String.mk ([] ++ a ++ e ++ sfx), ?_, ?_, ?_, ?_, ?_⟩
    · simp only [PhoneFrag.parse, hnone, ha, he, hs, Option.getD_some]
    · simp only [String.mk]
      simp [List.all_append, hadig, hedig, hsdig]
    · have hcc0 : ccDigitCount s = 0 := by
        unfold ccDigitCount
        rw [hpcc, hnone]
      rw [hcc0]
      simp [String.length, halen, helen, hslen]
    · have hcc0 : ccDigitCount s = 0 := by
        unfold ccDigitCount
        rw [hpcc, hnone]
      omega
    · constructor
      · intro hne
        exact absurd (hpcc.trans hnone) hne
      · have hlen : (String.mk ([] ++ a ++ e ++ sfx)).length = 10 := by
          simp [String.length, halen, helen, hslen]
        omega
  · refine ⟨String.mk (cd ++ a ++ e ++ sfx), ?_, ?_, ?_, ?_, ?_⟩
    · simp only [PhoneFrag.parse, hcd, ha, he, hs, Option.getD_some]
      rw [filter_ne_plus_of_digits hcddig]
    · simp only [String.mk]
      simp [List.all_append, hcddig, hadig, hedig, hsdig]
    · have hccn : ccDigitCount s = cd.length := by
        unfold ccDigitCount
        rw [hpcc, hcd]
        simp
      rw [hccn]
      simp [String.length, halen, helen, hslen]
      omega
    · have hccn : ccDigitCount s = cd.length := by
        unfold ccDigitCount
        rw [hpcc, hcd]
        simp
      omega
    · have hlen : (String.mk (cd ++ a ++ e ++ sfx)).length = cd.length + 10 := by
        simp [String.length, halen, helen, hslen]
      have hccn : ccDigitCount s = cd.length := by
        unfold ccDigitCount
        rw [hpcc, hcd]
        simp
      constructor
      · intro _
        omega
      · omega

/-- C4 witness: a phone line with a country code, normalized to 11 digits. -/
theorem c4_phone_normalize_digits_witness :
    (PhoneFrag.detect none "+1 987-654-3211").isSome = true ∧
    (∃ out : String,
      PhoneFrag.parse (PhoneFrag.detect none "+1 987-654-3211") = Except.ok out ∧
      out.data.all isDigitChar = true ∧
      out.length = 10 + ccDigitCount "+1 987-654-3211" ∧
      ccDigitCount "+1 987-654-3211" ≤ 3 ∧
      (phoneCountryCode "+1 987-654-3211" ≠ none → 1 ≤ ccDigitCount "+1 987-654-3211") ∧
      10 ≤ out.length ∧ out.length ≤ 13) :=
  ⟨rfl, c4_phone_normalize_digits "+1 987-654-3211" rfl⟩

/-! ### Success lemmas: running the matcher forward on structured input -/

lemma takeWhile_append_end {p : Char → Bool} {w r : List Char}
    (hw : w.all p = true) (hr : r = [] ∨ ∃ h t, r = h :: t ∧ p h = false) :
    (w ++ r).takeWhile p = w := by
  induction w with
  | nil =>
      rcases hr with rfl | ⟨h, t, rfl, hh⟩
      · rfl
      · simp [List.takeWhile_cons, hh]
  | cons a w ih =>
      simp only [List.all_cons, Bool.and_eq_true] at hw
      simp [List.takeWhile_cons, hw.1, ih hw.2]

lemma runLen_append_end {c : CharCls} {w r : List Char}
    (hw : w.all c.test = true) (hr : r = [] ∨ ∃ h t, r = h :: t ∧ c.test h = false) :
    runLen c (w ++ r) = w.length := by
  unfold runLen
  rw [takeWhile_append_end hw hr]

lemma runLen_cons_neg {c : CharCls} {ch : Char} {t : List Char} (h : c.test ch = false) :
    runLen c (ch :: t) = 0 := by
  simp [runLen, List.takeWhile_cons, h]

lemma tryCounts_top_hit {lo i : Nat} {k : Nat → Option Caps}
    (hlo : lo ≤ i) (hk : (k i).isSome = true) : (tryCounts lo k i).isSome = true := by
  cases i with
  | zero =>
      have h0 : lo = 0 := Nat.le_zero.mp hlo
      simpa [tryCounts, h0] using hk
  | succ n =>
      have hnlt : ¬(n + 1 < lo) := by omega
      obtain ⟨r, hr⟩ := Option.isSome_iff_exists.mp hk
      simp [tryCounts, hnlt, hr, Option.orElse]

lemma tryCounts_step_miss {lo i : Nat} {k : Nat → Option Caps}
    (hmiss : k (i + 1) = none) (hrec : (tryCounts lo k i).isSome = true) :
    (tryCounts lo k (i + 1)).isSome = true := by
  obtain ⟨r, hr⟩ := Option.isSome_iff_exists.mp hrec
  obtain ⟨j, hj1, hj2, _⟩ := tryCounts_eq_some_inv hr
  have hnlt : ¬(i + 1 < lo) := by omega
  simp [tryCounts, hnlt, hmiss, Option.orElse, hr]

lemma mmatch_cls_isSome {c : CharCls} {ch : Char} {cs : List Char} {caps : Caps}
    {k : List Char → Caps → Option Caps}
    (hc : c.test ch = true) (hk : (k cs caps).isSome = true) :
    (mmatch (.cls c) (ch :: cs) caps k).isSome = true := by
  simpa [mmatch, hc] using hk

lemma mmatch_cls_none {c : CharCls} {ch : Char} {cs : List Char} {caps : Caps}
    {k : List Char → Caps → Option Caps} (hc : c.test ch = false) :
    mmatch (.cls c) (ch :: cs) caps k = none := by
  simp [mmatch, hc]

lemma mmatch_rep_exact_isSome {c : CharCls} {lo : Nat} {w r' : List Char} {caps : Caps}
    {k : List Char → Caps → Option Caps}
    (hw : w.all c.test = true)
    (hr : r' = [] ∨ ∃ h t, r' = h :: t ∧ c.test h = false)
    (hlo : lo ≤ w.length)
    (hk : (k r' caps).isSome = true) :
    (mmatch (.rep c lo none) (w ++ r') caps k).isSome = true := by
  have hrun : runLen c (w ++ r') = w.length := runLen_append_end hw hr
  simp only [mmatch, hrun]
  apply tryCounts_top_hit hlo
  simpa [List.drop_left] using hk

lemma mmatch_rep_all_isSome {c : CharCls} {lo : Nat} {cs : List Char} {caps : Caps}
    {k : List Char → Caps → Option Caps}
    (hw : cs.all c.test = true) (hlo : lo ≤ cs.length)
    (hk : (k [] caps).isSome = true) :
    (mmatch (.rep c lo none) cs caps k).isSome = true := by
  have h := @mmatch_rep_exact_isSome c lo cs [] caps k hw (Or.inl rfl) hlo hk
  simpa using h

lemma mmatch_rep_plus_none {c : CharCls} {cs : List Char} {caps : Caps}
    {k : List Char → Caps → Option Caps}
    (h : runLen c cs = 0) : mmatch (.rep c 1 none) cs caps k = none := by
  simp [mmatch, h, tryCounts]

lemma mmatch_rep_back1_isSome {c : CharCls} {w : List Char} {b : Char} {r' : List Char}
    {caps : Caps} {k : List Char → Caps → Option Caps}
    (hw : w.all c.test = true) (hb : c.test b = true)
    (hr : r' = [] ∨ ∃ h t, r' = h :: t ∧ c.test h = false)
    (hwn : 1 ≤ w.length)
    (hmiss : k r' caps = none)
    (hk : (k (b :: r') caps).isSome = true) :
    (mmatch (.rep c 1 none) ((w ++ [b]) ++ r') caps k).isSome = true := by
  have hwb : (w ++ [b]).all c.test = true := by
    rw [List.all_append]
    simp [hw, hb]
  have hrun : runLen c ((w ++ [b]) ++ r') = w.length + 1 := by
    have h := runLen_append_end hwb hr
    simpa using h
  simp only [mmatch, hrun]
  apply tryCounts_step_miss
  · have hdrop : ((w ++ [b]) ++ r').drop (w.length + 1) = r' := by
      have hl : (w ++ [b]).length = w.length + 1 := by simp
      rw [← hl, List.drop_left]
    simpa [hdrop] using hmiss
  · apply tryCounts_top_hit hwn
    have hdrop2 : ((w ++ [b]) ++ r').drop w.length = b :: r' := by
      rw [List.append_assoc, List.singleton_append, List.drop_left]
    simpa [hdrop2] using hk

lemma mmatch_opt_commit_isSome {p : Re} {cs : List Char} {caps : Caps}
    {k : List Char → Caps → Option Caps}
    (h : (mmatch p cs caps k).isSome = true) :
    (mmatch (.opt p) cs caps k).isSome = true := by
  obtain ⟨r, hr⟩ := Option.isSome_iff_exists.mp h
  simp [mmatch, hr, Option.orElse]

lemma mmatch_opt_skip_isSome {p : Re} {cs : List Char} {caps : Caps}
    {k : List Char → Caps → Option Caps}
    (h1 : mmatch p cs caps k = none) (h2 : (k cs caps).isSome = true) :
    (mmatch (.opt p) cs caps k).isSome = true := by
  simpa [mmatch, h1, Option.orElse] using h2

lemma mmatch_opt_none {p : Re} {cs : List Char} {caps : Caps}
    {k : List Char → Caps → Option Caps}
    (h1 : mmatch p cs caps k = none) (h2 : k cs caps = none) :
    mmatch (.opt p) cs caps k = none := by
  simp [mmatch, h1, h2, Option.orElse]

lemma mmatch_eos_isSome {caps : Caps} {k : List Char → Caps → Option Caps}
    (hk : (k [] caps).isSome = true) : (mmatch .eos [] caps k).isSome = true := by
  simpa [mmatch] using hk

lemma word_ne_dot {b : Char} (h : isWordChar b = true) :
    CharCls.test (.lit '.') b = false := by
  simp only [CharCls.test]
  cases hbe : (('.' : Char) == b) with
  | false => rfl
  | true =>
      exfalso
      have hb : ('.' : Char) = b := eq_of_beq hbe
      rw [← hb] at h
      exact absurd h (by decide)

/-- The part of the email pattern after the local-part group succeeds on
`@dom.suf` whatever captures have accumulated. -/
lemma email_tail_succeeds (dom suf : List Char) (caps : Caps)
    (hd : dom.all isWordChar = true) (hdn : dom ≠ [])
    (hs : suf.all isWordChar = true) (hsn : suf ≠ []) :
    (mmatch (.seq (.cls (.lit '@')) (.seq (.group 2 (.rep .word 1 none))
        (.seq (.cls (.lit '.')) (.seq (.group 3 (.rep .word 1 none)) .eos))))
      ('@' :: (dom ++ '.' :: suf)) caps fullK).isSome = true := by
  rw [mmatch_seq_eq]
  apply mmatch_cls_isSome (by decide)
  try simp only
  rw [mmatch_seq_eq, mmatch_group_eq]
  apply mmatch_rep_exact_isSome hd (Or.inr ⟨'.', suf, rfl, by decide⟩)
    (by cases dom with
        | nil => exact absurd rfl hdn
        | cons a t => simp)
  try simp only
  rw [mmatch_seq_eq]
  apply mmatch_cls_isSome (by decide)
  try simp only
  rw [mmatch_seq_eq, mmatch_group_eq]
  apply mmatch_rep_all_isSome hs
    (by cases suf with
        | nil => exact absurd rfl hsn
        | cons a t => simp)
  try simp only
  apply mmatch_eos_isSome
  simp [fullK]

/-- C5 (amended): the email recognizer detects every line `pre@dom.suf`
with word-character `dom` and `suf` and a local part in the language of
`\w+\.?\w+` — at least two word characters, or word characters split by one
internal period.  (The claim's single-word-character local part is excluded:
see the counterexample "a@b.c".) -/
theorem c5_email_shape_detected (pre dom suf : List Char) (hpre : emailLocalOk pre)
    (hd : dom.all isWordChar = true) (hdn : dom ≠ [])
    (hs : suf.all isWordChar = true) (hsn : suf ≠ []) :
    (EmailFrag.detect none (String.mk (pre ++ '@' :: (dom ++ '.' :: suf)))).isSome = true := by
  show (mmatch emailPattern (pre ++ '@' :: (dom ++ '.' :: suf)) Caps.empty fullK).isSome = true
  unfold emailPattern
  rw [mmatch_seq_eq, mmatch_group_eq, mmatch_seq_eq]
  rcases hpre with ⟨hall, hlen⟩ | ⟨p1, p2, hpre_eq, hp1n, hp2n, hp1, hp2⟩
  · -- no internal period: the greedy \w+ takes everything, gives one back
    rcases pre.eq_nil_or_concat with h0 | ⟨q, b, hqb⟩
    · subst h0
      simp at hlen
    · subst hqb
      rw [List.concat_eq_append] at hall hlen ⊢
      rw [List.all_append, Bool.and_eq_true] at hall
      obtain ⟨hq, hb'⟩ := hall
      have hb : isWordChar b = true := by simpa using hb'
      have hqn : 1 ≤ q.length := by
        simp only [List.length_append, List.length_singleton] at hlen
        omega
      refine mmatch_rep_back1_isSome ?_ ?_
        (Or.inr ⟨'@', dom ++ '.' :: suf, rfl, by decide⟩) hqn ?_ ?_
      · exact hq
      · exact hb
      · -- taking all of the local part leaves no \w for the second \w+
        show mmatch (.seq (.opt (.cls (.lit '.'))) (.rep .word 1 none))
          ('@' :: (dom ++ '.' :: suf)) Caps.empty _ = none
        rw [mmatch_seq_eq]
        apply mmatch_opt_none
        · exact mmatch_cls_none (by decide)
        · exact mmatch_rep_plus_none (runLen_cons_neg (by decide))
      · -- giving back the final character lets the second \w+ take it
        show (mmatch (.seq (.opt (.cls (.lit '.'))) (.rep .word 1 none))
          (b :: '@' :: (dom ++ '.' :: suf)) Caps.empty _).isSome = true
        rw [mmatch_seq_eq]
        apply mmatch_opt_skip_isSome
        · exact mmatch_cls_none (word_ne_dot hb)
        · show (mmatch (.rep .word 1 none) ([b] ++ '@' :: (dom ++ '.' :: suf))
            Caps.empty _).isSome = true
          apply mmatch_rep_exact_isSome (by simp [CharCls.test, hb])
            (Or.inr ⟨'@', dom ++ '.' :: suf, rfl, by decide⟩) (by simp)
          try simp only
          exact email_tail_succeeds dom suf _ hd hdn hs hsn
  · -- internal period: \w+ stops at it, the \.? consumes it
    subst hpre_eq
    rw [List.append_assoc, List.cons_append]
    apply mmatch_rep_exact_isSome hp1
      (Or.inr ⟨'.', p2 ++ '@' :: (dom ++ '.' :: suf), rfl, by decide⟩)
      (by cases p1 with
          | nil => exact absurd rfl hp1n
          | cons a t => simp)
    try simp only
    show (mmatch (.seq (.opt (.cls (.lit '.'))) (.rep .word 1 none))
      ('.' :: (p2 ++ '@' :: (dom ++ '.' :: suf))) Caps.empty _).isSome = true
    rw [mmatch_seq_eq]
    apply mmatch_opt_commit_isSome
    apply mmatch_cls_isSome (by decide)
    try simp only
    apply mmatch_rep_exact_isSome hp2
      (Or.inr ⟨'@', dom ++ '.' :: suf, rfl, by decide⟩)
      (by cases p2 with
          | nil => exact absurd rfl hp2n
          | cons a t => simp)
    try simp only
    exact email_tail_succeeds dom suf _ hd hdn hs hsn

/-- C5 witness: "ab@b.c" (two-character local part) is detected. -/
theorem c5_email_shape_detected_witness :
    emailLocalOk ['a', 'b'] ∧
    (EmailFrag.detect none
      (String.mk (['a', 'b'] ++ '@' :: (['b'] ++ '.' :: ['c'])))).isSome = true :=
  ⟨Or.inl ⟨by decide, by decide⟩,
    c5_email_shape_detected ['a', 'b'] ['b'] ['c'] (Or.inl ⟨by decide, by decide⟩)
      (by decide) (by decide) (by decide) (by decide)⟩
